import Mathlib

/-!
Verification of the O2 Exchange Rust SDK signing and encoding core.

This file gives a shallow embedding, in Lean 4, of the deterministic parts of
the SDK that the specification describes: byte-level ABI encoding
(`encoding.rs`), market scaling and order validation (`models.rs`), compact
signature normalization (`crypto.rs`), the batch-submission nonce protocol
(`client.rs`), and the on-chain revert decoder (`onchain_revert.rs`).

Modelling conventions:
- Rust `u64`/`u128` values are embedded as `Nat` with explicit `% 2^64`
  (resp. bounds hypotheses) exactly where the Rust code can wrap or is
  bounded by its type.
- Byte arrays (`[u8; 32]`, `Vec<u8>`) are `List Nat` with each entry `< 256`.
- Fallible Rust functions returning `Result<T, O2Error>` become
  `Except O2Error T` (or `Except String T` where only the presence of the
  error matters).
- `rust_decimal::Decimal` values are embedded as exact rationals `ℚ`;
  this is exact for all quantities within the claims' scope.
- The async network API is an oracle: each network interaction's outcome is a
  parameter of the model, and the model records which network operations run.
-/

/-- Subset of the SDK error enum (`errors.rs`) reached by the modelled code
paths.  Payload strings are kept; variants not exercised by the modelled
functions are collapsed into `other`. -/
inductive O2Error where
  | sessionExpired (msg : String)
  | invalidOrderParams (msg : String)
  | cryptoError (msg : String)
  | other (msg : String)
  deriving DecidableEq, Repr

/-! ## Byte primitives (`encoding.rs`) -/

/-- Big-endian byte list of `v`, `k` bytes long (most significant first). -/
def bytesBE : Nat → Nat → List Nat
  | 0, _ => []
  | k + 1, v => bytesBE k (v / 256) ++ [v % 256]

/-- `u64_be(value)`: encode a u64 value as 8 bytes big-endian. -/
def u64_be (value : Nat) : List Nat := bytesBE 8 value

/-- ASCII bytes of a Rust `&str` (all strings in the SDK are ASCII). -/
def asciiBytes (s : String) : List Nat := s.data.map Char.toNat

/-- `function_selector(name)`: u64_be(len(name)) ++ utf8(name); length-prefixed,
NOT hash-based. -/
def function_selector (name : String) : List Nat :=
  u64_be (asciiBytes name).length ++ asciiBytes name

/-- `encode_identity(discriminant, address)`: u64(discriminant) ++ 32-byte
address. -/
def encode_identity (discriminant : Nat) (address : List Nat) : List Nat :=
  u64_be discriminant ++ address

/-- `encode_option_call_data`: None -> u64(0); Some d -> u64(1) ++
u64(len d) ++ d. -/
def encode_option_call_data : Option (List Nat) → List Nat
  | none => u64_be 0
  | some d => u64_be 1 ++ u64_be d.length ++ d

/-- Order type variants for encoding (`OrderTypeEncoding` in `encoding.rs`). -/
inductive OrderTypeEncoding where
  | limit (price timestamp : Nat)
  | spot
  | fillOrKill
  | postOnly
  | market
  | boundedMarket (maxPrice minPrice : Nat)
  deriving DecidableEq, Repr

/-- `encode_order_args(price, quantity, order_type)`: u64(price) ++
u64(quantity) ++ variant tag ++ variant payload. -/
def encode_order_args (price quantity : Nat) : OrderTypeEncoding → List Nat
  | .limit p ts => u64_be price ++ u64_be quantity ++ u64_be 0 ++ u64_be p ++ u64_be ts
  | .spot => u64_be price ++ u64_be quantity ++ u64_be 1
  | .fillOrKill => u64_be price ++ u64_be quantity ++ u64_be 2
  | .postOnly => u64_be price ++ u64_be quantity ++ u64_be 3
  | .market => u64_be price ++ u64_be quantity ++ u64_be 4
  | .boundedMarket maxP minP =>
      u64_be price ++ u64_be quantity ++ u64_be 5 ++ u64_be maxP ++ u64_be minP

/-- A low-level contract call used in action signing (`CallArg`). -/
structure CallArg where
  contractId : List Nat
  functionSelectorBytes : List Nat
  amount : Nat
  assetId : List Nat
  gas : Nat
  callData : Option (List Nat)
  deriving DecidableEq, Repr

/-- `GAS_MAX`: gas is always u64::MAX; the API overrides it. -/
def GAS_MAX : Nat := 2 ^ 64 - 1

/-- Per-call segment of the action signing bytes: contract_id(32) ++
u64(selector_len) ++ selector ++ u64(amount) ++ asset_id(32) ++ u64(gas) ++
encode_option_call_data(call_data). -/
def callBytes (c : CallArg) : List Nat :=
  c.contractId ++ u64_be c.functionSelectorBytes.length ++ c.functionSelectorBytes ++
    u64_be c.amount ++ c.assetId ++ u64_be c.gas ++ encode_option_call_data c.callData

/-- `build_actions_signing_bytes(nonce, calls)`: u64(nonce) ++ u64(num_calls)
++ the per-call segments in order. -/
def build_actions_signing_bytes (nonce : Nat) (calls : List CallArg) : List Nat :=
  u64_be nonce ++ u64_be calls.length ++ (calls.map callBytes).flatten

/-- `create_order_to_call`: convert a CreateOrder action to a `CallArg`.
For side "Buy" the amount is `(price as u128 * quantity as u128) /
10u128.pow(base_decimals)` narrowed with a plain `as u64` cast, which wraps
modulo `2^64`; for any other side the amount is `quantity`. -/
def create_order_to_call (contractId : List Nat) (side : String)
    (price quantity : Nat) (orderType : OrderTypeEncoding) (baseDecimals : Nat)
    (baseAsset quoteAsset : List Nat) : CallArg :=
  let callData := encode_order_args price quantity orderType
  let amountAsset : Nat × List Nat :=
    if side = "Buy" then
      ((price * quantity / 10 ^ baseDecimals) % 2 ^ 64, quoteAsset)
    else
      (quantity, baseAsset)
  { contractId := contractId
    functionSelectorBytes := function_selector "create_order"
    amount := amountAsset.1
    assetId := amountAsset.2
    gas := GAS_MAX
    callData := some callData }

/-! ## Market scaling and validation (`models.rs`) -/

/-- Asset info within a market; only the numeric fields used by scaling and
validation are modelled (`symbol` and `asset` id strings are irrelevant
here). -/
structure MarketAsset where
  decimals : Nat
  maxPrecision : Nat
  deriving DecidableEq, Repr

/-- A trading market; only the fields read by `adjust_quantity`,
`validate_order`, `scale_price` and `format_price` are modelled. -/
structure Market where
  minOrder : Nat
  base : MarketAsset
  quote : MarketAsset
  deriving DecidableEq, Repr

/-- `Market::adjust_quantity(price, quantity)` translated clause by clause:
zero-price check, `checked_pow_u128` (fails iff `10^base_decimals` exceeds
u128::MAX), exact u128 product, remainder test, downward adjustment
`(product - remainder) / price`, and the u64-range check on the result. -/
def Market.adjust_quantity (m : Market) (price quantity : Nat) :
    Except O2Error Nat :=
  if price = 0 then
    .error (.invalidOrderParams "Price cannot be zero when adjusting quantity")
  else if 2 ^ 128 ≤ 10 ^ m.base.decimals then
    .error (.other "Invalid base.decimals: pow overflows u128")
  else
    let product := price * quantity
    let remainder := product % 10 ^ m.base.decimals
    if remainder = 0 then
      .ok quantity
    else
      let adjusted := (product - remainder) / price
      if 2 ^ 64 - 1 < adjusted then
        .error (.invalidOrderParams "Adjusted quantity exceeds u64 range")
      else
        .ok adjusted

/-- `Market::validate_order(price, quantity)` translated clause by clause:
`checked_pow_u128`, exact u128 product, min-order check on
`product / 10^base_decimals`, then the FractionalPrice divisibility check. -/
def Market.validate_order (m : Market) (price quantity : Nat) :
    Except O2Error Unit :=
  if 2 ^ 128 ≤ 10 ^ m.base.decimals then
    .error (.other "Invalid base.decimals: pow overflows u128")
  else
    let quoteValue := price * quantity / 10 ^ m.base.decimals
    if quoteValue < m.minOrder then
      .error (.invalidOrderParams "Quote value below min_order")
    else if price * quantity % 10 ^ m.base.decimals ≠ 0 then
      .error (.invalidOrderParams "FractionalPrice")
    else
      .ok ()

/-! ## Decimal scaling (`models.rs`: `scale_price` / `format_price`)

`rust_decimal::Decimal` arithmetic is embedded as exact arithmetic on `ℚ`.
The functions are stated for a generic (decimals, max_precision) pair; in the
source they are instantiated at the quote asset (`scale_price`/`format_price`)
and at the base asset (`scale_quantity`/`format_quantity`). -/

/-- `scale_price`-style scaling: `checked_pow_u64` on `10^decimals` (fails iff
it exceeds u64::MAX), multiply and floor, parse the floored integer as u64
(fails when negative or ≥ 2^64), `checked_truncate_factor` (fails when
max_precision > decimals or the step overflows u64), then truncate to the
step `10^(decimals - max_precision)`. -/
def scale_value (decimals maxPrecision : Nat) (q : ℚ) : Except String Nat :=
  if 2 ^ 64 ≤ 10 ^ decimals then .error "pow overflows u64"
  else
    let scaled : ℤ := ⌊q * (10 ^ decimals : ℚ)⌋
    if scaled < 0 then .error "failed to parse into u64"
    else if 2 ^ 64 ≤ scaled.toNat then .error "failed to parse into u64"
    else if decimals < maxPrecision then .error "max_precision exceeds decimals"
    else if 2 ^ 64 ≤ 10 ^ (decimals - maxPrecision) then .error "pow overflows u64"
    else .ok (scaled.toNat / 10 ^ (decimals - maxPrecision) * 10 ^ (decimals - maxPrecision))

/-- `format_price`-style display conversion: divide the chain value by
`10^decimals` (exact in the `ℚ` embedding of `Decimal`). -/
def format_value (decimals : Nat) (chainValue : Nat) : ℚ :=
  (chainValue : ℚ) / (10 ^ decimals : ℚ)

/-! ## Session / nonce protocol (`client.rs`)

The network is an oracle: a `BatchEnv` fixes the outcome of each network
interaction a single `batch_actions_multi` run can perform, and the model
returns the list of network operations actually performed, in order. -/

/-- Local session state (`models.rs::Session`).  Only `expiry` and `nonce`
are modelled: the key material, addresses and ids are opaque to the
control flow verified here. -/
structure Session where
  expiry : Nat
  nonce : Nat
  deriving DecidableEq, Repr

/-- A network operation performed by the client. -/
inductive NetOp where
  | marketsFetch
  | ordersFetch
  | submitCall
  | nonceFetch
  deriving DecidableEq, Repr

/-- Oracle outcomes for one `batch_actions_multi` run: the current unix time,
the combined outcome of market resolution plus action conversion (everything
between the expiry check and signing), the submit outcome (`ρ` is the
response type), and the account-nonce lookup used by `refresh_nonce`. -/
structure BatchEnv (ρ : Type) where
  now : Nat
  prepare : Except O2Error Unit
  submit : Except O2Error ρ
  accountNonce : Except O2Error Nat

/-- `O2Client::check_session_expiry`: error iff `expiry > 0 && now >= expiry`. -/
def check_session_expiry (now : Nat) (session : Session) : Except O2Error Unit :=
  if 0 < session.expiry ∧ session.expiry ≤ now then
    .error (.sessionExpired
      "Session has expired. Create a new session before submitting actions.")
  else
    .ok ()

/-- `O2Client::refresh_nonce`: on a successful account lookup the session
nonce is overwritten with the canonical value; on failure the session is
untouched and the error is returned. -/
def refresh_nonce (accountNonce : Except O2Error Nat) (session : Session) :
    Except O2Error Nat × Session :=
  match accountNonce with
  | .ok n => (.ok n, { session with nonce := n })
  | .error e => (.error e, session)

/-- `O2Client::batch_actions_multi`, control flow and session mutation:
expiry check first (no network, session untouched on failure); then market
resolution and action conversion; then sign and submit at the current nonce.
On submit success the nonce is incremented by one.  On submit failure the
nonce is incremented by one and `refresh_nonce` runs with its result
discarded (`let _ = ...`), so a failed refresh leaves the incremented nonce
and never alters the returned error. -/
def batch_actions_multi {ρ : Type} (env : BatchEnv ρ) (session : Session) :
    Except O2Error ρ × Session × List NetOp :=
  match check_session_expiry env.now session with
  | .error e => (.error e, session, [])
  | .ok _ =>
    match env.prepare with
    | .error e => (.error e, session, [.marketsFetch])
    | .ok _ =>
      match env.submit with
      | .ok resp =>
          (.ok resp, { session with nonce := session.nonce + 1 },
            [.marketsFetch, .submitCall])
      | .error e =>
          let bumped : Session := { session with nonce := session.nonce + 1 }
          (.error e, (refresh_nonce env.accountNonce bumped).2,
            [.marketsFetch, .submitCall, .nonceFetch])

/-- `slice::chunks(n)` on lists (`n > 0` in every use site). -/
def listChunks {α : Type} (n : Nat) (l : List α) : List (List α) :=
  if l.isEmpty ∨ n = 0 then []
  else l.take n :: listChunks n (l.drop n)
termination_by l.length
decreasing_by
  simp only [List.length_drop]
  rcases l with _ | ⟨a, t⟩
  · simp_all
  · simp only [List.length_cons]
    omega

/-- `O2Client::build_cancel_actions` keeps the order ids whose trimmed text
is non-empty (each becomes one CancelOrder action). -/
def build_cancel_actions (orderIds : List String) : List String :=
  orderIds.filter (fun oid => ¬ oid.trim = "")

/-- The `for chunk in orders.chunks(5)` loop of `cancel_all_orders`:
chunks whose filtered action list is empty are skipped; each submitted chunk
runs `batch_actions` (hence `batch_actions_multi`) with its own oracle
outcomes `batches i`, aborting on the first error (`?`). -/
def cancel_chunks {ρ : Type} (batches : Nat → BatchEnv ρ) (i : Nat)
    (chunks : List (List String)) (session : Session) :
    Except O2Error (List ρ) × Session × List NetOp :=
  match chunks with
  | [] => (.ok [], session, [])
  | chunk :: rest =>
    if (build_cancel_actions chunk).isEmpty then
      cancel_chunks batches i rest session
    else
      match batch_actions_multi (batches i) session with
      | (.error e, s1, ops) => (.error e, s1, ops)
      | (.ok r, s1, ops) =>
        match cancel_chunks batches (i + 1) rest s1 with
        | (.error e, s2, ops2) => (.error e, s2, ops ++ ops2)
        | (.ok rs, s2, ops2) => (.ok (r :: rs), s2, ops ++ ops2)

/-- `O2Client::cancel_all_orders`: expiry check first (no network, session
untouched on failure); then market resolution and the open-orders page
fetch; then cancellations resubmitted in chunks of ≤ 5. -/
def cancel_all_orders {ρ : Type} (now : Nat) (marketFetch : Except O2Error Unit)
    (ordersFetch : Except O2Error (List String)) (batches : Nat → BatchEnv ρ)
    (session : Session) : Except O2Error (List ρ) × Session × List NetOp :=
  match check_session_expiry now session with
  | .error e => (.error e, session, [])
  | .ok _ =>
    match marketFetch with
    | .error e => (.error e, session, [.marketsFetch])
    | .ok _ =>
      match ordersFetch with
      | .error e => (.error e, session, [.marketsFetch, .ordersFetch])
      | .ok orders =>
        match cancel_chunks batches 0 (listChunks 5 orders) session with
        | (res, s1, ops) => (res, s1, .marketsFetch :: .ordersFetch :: ops)

/-! ## Compact signature normalization (`crypto.rs`)

`fuel_compact_sign` first obtains a raw recoverable ECDSA triple
`(r, s, recovery_id)` from the secp256k1 library (external, not modelled) and
then deterministically normalizes and packs it.  That post-processing —
`gt_be`, `negate_s`, the low-s branch and the recovery-bit packing — is
modelled here byte for byte. -/

/-- Half of the secp256k1 group order (big-endian bytes), used for low-s
normalization. -/
def SECP256K1_ORDER_HALF : List Nat :=
  [0x7F, 0xFF, 0xFF, 0xFF, 0xFF, 0xFF, 0xFF, 0xFF, 0xFF, 0xFF, 0xFF, 0xFF,
   0xFF, 0xFF, 0xFF, 0xFF, 0x5D, 0x57, 0x6E, 0x73, 0x57, 0xA4, 0x50, 0x1D,
   0xDF, 0xE9, 0x2F, 0x46, 0x68, 0x1B, 0x20, 0xA0]

/-- Full secp256k1 group order (big-endian bytes). -/
def SECP256K1_ORDER : List Nat :=
  [0xFF, 0xFF, 0xFF, 0xFF, 0xFF, 0xFF, 0xFF, 0xFF, 0xFF, 0xFF, 0xFF, 0xFF,
   0xFF, 0xFF, 0xFF, 0xFE, 0xBA, 0xAE, 0xDC, 0xE6, 0xAF, 0x48, 0xA0, 0x3B,
   0xBF, 0xD2, 0x5E, 0x8C, 0xD0, 0x36, 0x41, 0x41]

/-- `gt_be(a, b)`: compare two big-endian byte arrays; true iff `a > b`
(first differing byte decides). -/
def gt_be : List Nat → List Nat → Bool
  | a :: as_, b :: bs =>
      if b < a then true
      else if a < b then false
      else gt_be as_ bs
  | _, _ => false

/-- The borrow loop of `negate_s` on little-endian byte lists: Rust iterates
`i` from 31 down to 0 computing `diff = ORDER[i] as u16 - s[i] as u16 -
borrow` (u16 wrap-around), emitting `diff as u8` and `borrow = diff > 255`.
Since every operand is ≤ 255 + 1, the u16 wrap equals
`(x + 65536 - y - borrow) % 65536`. -/
def subBytesLE : List Nat → List Nat → Nat → List Nat
  | x :: xs, y :: ys, borrow =>
      let diff := (x + 65536 - y - borrow) % 65536
      diff % 256 :: subBytesLE xs ys (if 255 < diff then 1 else 0)
  | _, _, _ => []

/-- `negate_s(s)`: ORDER - s on 32-byte big-endian arrays, via the
least-significant-first borrow loop. -/
def negate_s (s : List Nat) : List Nat :=
  (subBytesLE SECP256K1_ORDER.reverse s.reverse 0).reverse

/-- Value of a big-endian byte list. -/
def fromBytesBE : List Nat → Nat
  | [] => 0
  | b :: bs => b * 256 ^ bs.length + fromBytesBE bs

/-- The secp256k1 group order as a number. -/
def secpOrder : Nat :=
  0xFFFFFFFFFFFFFFFFFFFFFFFFFFFFFFFEBAAEDCE6AF48A03BBFD25E8CD0364141

/-- The deterministic tail of `fuel_compact_sign`, applied to the raw
recoverable-signature triple `(r, s, recovery_id)`: low-s normalization
(`if gt_be(s, ORDER_HALF) { s = negate_s(s); recovery_id ^= 1 }`) followed by
packing the recovery bit, `s[0] = (recovery_id << 7) | (s[0] & 0x7F)` in u8
arithmetic, and emitting `r ++ s`. -/
def fuel_compact_pack (r s : List Nat) (recovery_id : Nat) : List Nat :=
  let norm : List Nat × Nat :=
    if gt_be s SECP256K1_ORDER_HALF then (negate_s s, recovery_id ^^^ 1)
    else (s, recovery_id)
  let packed : List Nat :=
    match norm.1 with
    | [] => []
    | b0 :: rest => ((norm.2 <<< 7) % 256 ||| (b0 &&& 0x7F)) :: rest
  r ++ packed

/-! ## On-chain revert decoder (`onchain_revert.rs`)

Strings are modelled as Lean `String`s (char lists); the SDK text is ASCII,
so `str::contains`, `find` and byte-wise scanning coincide with char-wise
scanning.  The optional `receipts: Option<Value>` argument enters the
computation only through its JSON serialization, so it is modelled as the
serialized text `Option String`. -/

/-- Substring test on char lists (`str::contains` with a `&str` pattern). -/
def listContainsSub : List Char → List Char → Bool
  | [], sub => sub.isEmpty
  | c :: t, sub => List.isPrefixOf sub (c :: t) || listContainsSub t sub

/-- Substring test on strings. -/
def strContains (hay sub : String) : Bool := listContainsSub hay.data sub.data

/-- The `ABI_ERROR_ENUMS` catalog: known contract error groups and their
variant lists, in source order. -/
def ABI_ERROR_ENUMS : List (String × List String) :=
  [("contract_schema::blacklist::BlacklistError",
    ["TraderAlreadyBlacklisted", "TraderNotBlacklisted"]),
   ("contract_schema::order_book::FeeError",
    ["NoFeesAvailable"]),
   ("contract_schema::order_book::OrderBookInitializationError",
    ["InvalidAsset", "InvalidDecimals", "InvalidPriceWindow",
     "InvalidPricePrecision", "OwnerNotSet", "InvalidMinOrder"]),
   ("contract_schema::order_book::OrderCancelError",
    ["NotOrderOwner", "TraderNotBlacklisted", "NoBlacklist"]),
   ("contract_schema::order_book::OrderCreationError",
    ["InvalidOrderArgs", "InvalidInputAmount", "InvalidAsset",
     "PriceExceedsRange", "PricePrecision", "InvalidHeapPrices",
     "FractionalPrice", "OrderNotFilled", "OrderPartiallyFilled",
     "TraderNotWhiteListed", "TraderBlackListed", "InvalidMarketOrder",
     "InvalidMarketOrderArgs"]),
   ("contract_schema::register::OrderBookRegistryError",
    ["MarketAlreadyHasOrderBook", "InvalidPair"]),
   ("contract_schema::register::TradeAccountRegistryError",
    ["OwnerAlreadyHasTradeAccount", "TradeAccountNotRegistered",
     "TradeAccountAlreadyHasReferer"]),
   ("contract_schema::trade_account::CallerError",
    ["InvalidCaller"]),
   ("contract_schema::trade_account::NonceError",
    ["InvalidNonce"]),
   ("contract_schema::trade_account::SessionError",
    ["SessionInThePast", "NoApprovedContractIdsProvided"]),
   ("contract_schema::trade_account::SignerError",
    ["InvalidSigner", "ProxyOwnerIsContract"]),
   ("contract_schema::trade_account::WithdrawError",
    ["AmountIsZero", "NotEnoughBalance"]),
   ("contract_schema::whitelist::WhitelistError",
    ["TraderAlreadyWhitelisted", "TraderNotWhitelisted"]),
   ("ownership::errors::InitializationError",
    ["CannotReinitialized"]),
   ("pausable::errors::PauseError",
    ["Paused", "NotPaused"]),
   ("src5::AccessError",
    ["NotOwner"]),
   ("std::crypto::signature_error::SignatureError",
    ["UnrecoverablePublicKey", "InvalidPublicKey", "InvalidSignature",
     "InvalidOperation"]),
   ("upgradability::errors::SetProxyOwnerError",
    ["CannotUninitialize"])]

/-- `infer_enum_from_context`: keyword-based group inference, in source
order. -/
def infer_enum_from_context (context : String) : Option String :=
  if strContains context "CreateOrder" then
    some "contract_schema::order_book::OrderCreationError"
  else if strContains context "CancelOrder" then
    some "contract_schema::order_book::OrderCancelError"
  else if strContains context "SettleBalance" || strContains context "settle_balance" then
    some "contract_schema::order_book::OrderCreationError"
  else if strContains context "withdraw" || strContains context "Withdraw" then
    some "contract_schema::trade_account::WithdrawError"
  else if strContains context "register_referer" then
    some "contract_schema::register::TradeAccountRegistryError"
  else if strContains context "session" || strContains context "Session" then
    some "contract_schema::trade_account::SessionError"
  else if strContains context "nonce" || strContains context "Nonce" then
    some "contract_schema::trade_account::NonceError"
  else none

/-- `lookup_variant`: 1-based variant lookup in a named group. -/
def lookup_variant (enumName : String) (ordinal : Nat) : Option String :=
  match ABI_ERROR_ENUMS.find? (fun p => p.1 = enumName) with
  | none => none
  | some p =>
      if ordinal = 0 ∨ p.2.length < ordinal then none
      else some (p.2.getD (ordinal - 1) "")

/-- `[String]::join(", ")` used for the ambiguous-candidates listing. -/
def joinSep (sep : String) : List String → String
  | [] => ""
  | [x] => x
  | x :: xs => x ++ sep ++ joinSep sep xs

/-- Value of a decimal digit string (`str::parse::<u64>` succeeds exactly on
nonempty all-digit strings whose value fits in u64; the caller checks both). -/
def digitsToNat (ds : List Char) : Nat :=
  ds.foldl (fun acc c => acc * 10 + (c.toNat - 48)) 0

/-- The scanning loop of `extract_revert_codes`: find each occurrence of
"Revert(", take the following ASCII digits, require a closing ')' and a
value fitting u64, and continue scanning right after the matched
"Revert(".  The structural `fuel` argument bounds the number of scanning
steps; both recursive calls strictly shrink the text, so starting the scan
with `fuel = text.length` (as `extract_revert_codes` does) never exhausts
it. -/
def extractRevertAux : Nat → List Char → List Nat
  | 0, _ => []
  | _, [] => []
  | fuel + 1, c :: cs =>
    if List.isPrefixOf "Revert(".data (c :: cs) then
      let rest := cs.drop 6
      let digits := rest.takeWhile Char.isDigit
      let tailAfter := rest.drop digits.length
      let codes := extractRevertAux fuel rest
      if ¬ digits.isEmpty ∧ tailAfter.head? = some ')' ∧ digitsToNat digits < 2 ^ 64 then
        digitsToNat digits :: codes
      else codes
    else
      extractRevertAux fuel cs

/-- `extract_revert_codes(text)`. -/
def extract_revert_codes (text : String) : List Nat :=
  extractRevertAux text.data.length text.data

/-- Lowercase hex rendering of `n`, zero-padded to 16 digits
(Rust `format!("{:016x}", raw)`). -/
def hexPad16 (n : Nat) : String :=
  let ds := Nat.toDigits 16 n
  String.mk (List.replicate (16 - ds.length) '0' ++ ds)

/-- `decode_revert_code(raw, context)`: test the reserved signal pattern
`0xffffffffffff0000 | ordinal`, extract the nonzero 16-bit ordinal, try the
context-inferred group first, then fall back to the full catalog —
`unknown` when no group has the ordinal, the single candidate when exactly
one does, and an `ambiguous` listing of every candidate otherwise. -/
def decode_revert_code (raw : Nat) (context : String) : Option String :=
  if raw &&& 0xffffffffffff0000 ≠ 0xffffffffffff0000 then none
  else
    let ordinal := raw &&& 0xffff
    if ordinal = 0 then none
    else
      let viaContext : Option String :=
        match infer_enum_from_context context with
        | none => none
        | some enumName =>
          match lookup_variant enumName ordinal with
          | none => none
          | some variant =>
              some (enumName ++ "::" ++ variant ++ " (ordinal=" ++
                toString ordinal ++ ", raw=0x" ++ hexPad16 raw ++ ")")
      match viaContext with
      | some msg => some msg
      | none =>
        let candidates := ABI_ERROR_ENUMS.filterMap (fun p =>
          if ordinal ≤ p.2.length then some (p.1 ++ "::" ++ p.2.getD (ordinal - 1) "")
          else none)
        if candidates.isEmpty then
          some ("unknown ABI error ordinal=" ++ toString ordinal ++
            " (raw=0x" ++ hexPad16 raw ++ ")")
        else if candidates.length = 1 then
          some (candidates.headD "" ++ " (ordinal=" ++ toString ordinal ++
            ", raw=0x" ++ hexPad16 raw ++ ")")
        else
          some ("ambiguous ABI error ordinal=" ++ toString ordinal ++
            " (raw=0x" ++ hexPad16 raw ++ "); candidates=[" ++
            joinSep ", " candidates ++ "]")

/-- The `for raw in extract_revert_codes(..)` loop of
`augment_revert_reason`: first successfully decoded code wins. -/
def firstDecoded (codes : List Nat) (context : String) : Option String :=
  match codes with
  | [] => none
  | raw :: rest =>
    match decode_revert_code raw context with
    | some m => some m
    | none => firstDecoded rest context

/-- The combined context text scanned by `augment_revert_reason`:
message, reason and the serialized receipts joined by newlines. -/
def revertContext (message reason : String) (receipts : Option String) : String :=
  message ++ "\n" ++ reason ++ "\n" ++ receipts.getD ""

/-- `augment_revert_reason(message, reason, receipts)`: build the combined
context text, decode the first decodable revert code, and return the reason
unchanged (no decode), the decoded text (empty reason), the reason (already
contains the decoded text) or `reason [decoded]`. -/
def augment_revert_reason (message reason : String) (receipts : Option String) :
    String :=
  let context := revertContext message reason receipts
  match firstDecoded (extract_revert_codes context) context with
  | none => reason
  | some mapped =>
    if reason = "" then mapped
    else if strContains reason mapped then reason
    else reason ++ " [" ++ mapped ++ "]"

/-- The VM's reserved signal-error pattern: `0xffffffffffff0000 | ordinal`
with a nonzero 16-bit ordinal (the condition under which
`decode_revert_code` can return a decode at all). -/
def sentinelOk (raw : Nat) : Bool :=
  (raw &&& 0xffffffffffff0000 = 0xffffffffffff0000) ∧ (raw &&& 0xffff ≠ 0)

/-- Value of a little-endian byte list (used to reason about the
least-significant-first borrow loop of `negate_s`). -/
def fromBytesLE : List Nat → Nat
  | [] => 0
  | b :: bs => b + 256 * fromBytesLE bs

/-! ## Helper lemmas -/

theorem bytesBE_length (k v : Nat) : (bytesBE k v).length = k := by
  induction k generalizing v with
  | zero => simp [bytesBE]
  | succ k ih => simp [bytesBE, ih]

theorem u64_be_length (v : Nat) : (u64_be v).length = 8 := bytesBE_length 8 v

/-! ## C2: `adjust_quantity` and the fractional-price invariant -/

/-- C2 (code bug): `Market::adjust_quantity` violates its own documented
postcondition.  With `base.decimals = 1`, price 3 and quantity 5 it returns
`Ok(3)`, yet `3 * 3 = 9` is not a multiple of `10^1`; the largest quantity
`≤ 5` that would satisfy the invariant is `0`. -/
theorem adjust_quantity_fractional_violation :
    Market.adjust_quantity ⟨0, ⟨1, 1⟩, ⟨1, 1⟩⟩ 3 5 = .ok 3 ∧
    3 * 3 % 10 ^ (1 : Nat) ≠ 0 ∧
    (∀ q ≤ 5, 3 * q % 10 ^ (1 : Nat) = 0 → q = 0) :=
  ⟨rfl, by decide, by decide⟩

/-! ## C4: Buy amount computation in `create_order_to_call` -/

/-- C4 (code bug): for side Buy, `create_order_to_call` widens to 128 bits
before multiplying but narrows the result with a plain `as u64` cast: at
price `2^63`, quantity 4 and `base_decimals = 0` the exact quote amount is
`2^65`, and the emitted call amount silently wraps to `0` instead of failing
with a typed overflow error. -/
theorem create_order_to_call_buy_amount_wraps :
    (create_order_to_call (List.replicate 32 0) "Buy" (2 ^ 63) 4 .spot 0
        (List.replicate 32 1) (List.replicate 32 2)).amount = 0 ∧
    2 ^ 63 * 4 / 10 ^ (0 : Nat) = 2 ^ 65 ∧
    (0 : Nat) ≠ 2 ^ 65 :=
  ⟨rfl, by norm_num, by norm_num⟩

/-! ## C5: `validate_order` error condition -/

/-- C5: for u64 inputs with `10^base_decimals` representable in u128,
`validate_order` errors exactly when the 128-bit quote value
`price*quantity / 10^base_decimals` is below `min_order` or
`price*quantity` is not a multiple of `10^base_decimals`, and returns
success otherwise. -/
theorem validate_order_error_iff (m : Market) (price quantity : Nat)
    (hp : price < 2 ^ 64) (hq : quantity < 2 ^ 64)
    (hrep : 10 ^ m.base.decimals < 2 ^ 128) :
    ((∃ e, Market.validate_order m price quantity = .error e) ↔
      (price * quantity / 10 ^ m.base.decimals < m.minOrder ∨
        price * quantity % 10 ^ m.base.decimals ≠ 0)) ∧
    ((Market.validate_order m price quantity = .ok ()) ↔
      ¬ (price * quantity / 10 ^ m.base.decimals < m.minOrder ∨
        price * quantity % 10 ^ m.base.decimals ≠ 0)) := by
  have hpow : (2 : Nat) ^ 128 = 340282366920938463463374607431768211456 := by norm_num
  rw [hpow] at hrep
  have hno : ¬ (340282366920938463463374607431768211456 : Nat) ≤ 10 ^ m.base.decimals :=
    not_le.mpr hrep
  unfold Market.validate_order
  by_cases h1 : price * quantity / 10 ^ m.base.decimals < m.minOrder
  · simp [hno, h1]
  · by_cases h2 : price * quantity % 10 ^ m.base.decimals = 0
    · simp [hno, h1, h2]
    · simp [hno, h1, h2]

/-- C5 witness: a concrete market and order passing validation. -/
theorem validate_order_error_iff_witness :
    ((∃ e, Market.validate_order ⟨1000000, ⟨9, 6⟩, ⟨9, 6⟩⟩ 1000000 1000000000 = .error e) ↔
      (1000000 * 1000000000 / 10 ^ (9 : Nat) < 1000000 ∨
        1000000 * 1000000000 % 10 ^ (9 : Nat) ≠ 0)) ∧
    ((Market.validate_order ⟨1000000, ⟨9, 6⟩, ⟨9, 6⟩⟩ 1000000 1000000000 = .ok ()) ↔
      ¬ (1000000 * 1000000000 / 10 ^ (9 : Nat) < 1000000 ∨
        1000000 * 1000000000 % 10 ^ (9 : Nat) ≠ 0)) :=
  validate_order_error_iff ⟨1000000, ⟨9, 6⟩, ⟨9, 6⟩⟩ 1000000 1000000000
    (by norm_num) (by norm_num) (by norm_num)

/-! ## C6: action-batch signing-byte layout -/

/-- C6 (amended): for nonce 42 and a single call with amount 1000, gas
u64::MAX and an 8-byte Some call_data, `build_actions_signing_bytes`
produces `u64_be(nonce) ++ u64_be(1)` followed by `contract_id(32) ++
u64_be(len(selector)) ++ selector ++ u64_be(amount) ++ asset_id(32) ++
u64_be(gas) ++ u64_be(1) ++ u64_be(len) ++ bytes`, for a total of
`128 + len(selector)` bytes (not 101). -/
theorem build_actions_single_call_layout (c : CallArg) (d : List Nat)
    (hamt : c.amount = 1000) (hgas : c.gas = GAS_MAX)
    (hdata : c.callData = some d) (hd : d.length = 8)
    (hcid : c.contractId.length = 32) (haid : c.assetId.length = 32) :
    build_actions_signing_bytes 42 [c] =
      u64_be 42 ++ u64_be 1 ++
        (c.contractId ++ u64_be c.functionSelectorBytes.length ++
          c.functionSelectorBytes ++ u64_be 1000 ++ c.assetId ++
          u64_be GAS_MAX ++ (u64_be 1 ++ u64_be 8 ++ d)) ∧
    (build_actions_signing_bytes 42 [c]).length =
      128 + c.functionSelectorBytes.length := by
  have hlayout : build_actions_signing_bytes 42 [c] =
      u64_be 42 ++ u64_be 1 ++
        (c.contractId ++ u64_be c.functionSelectorBytes.length ++
          c.functionSelectorBytes ++ u64_be 1000 ++ c.assetId ++
          u64_be GAS_MAX ++ (u64_be 1 ++ u64_be 8 ++ d)) := by
    simp [build_actions_signing_bytes, callBytes, encode_option_call_data,
      hamt, hgas, hdata, hd, List.append_assoc]
  refine ⟨hlayout, ?_⟩
  rw [hlayout]
  simp [List.length_append, u64_be_length, hcid, haid, hd]
  omega

/-- C6 counterexample: the exact instance from the spec's fixture (the
"create_order" selector, 32-byte ids, amount 1000, gas u64::MAX, 8-byte Some
call_data) yields 148 bytes, not 101. -/
theorem build_actions_single_call_not_101_bytes :
    (build_actions_signing_bytes 42
        [{ contractId := List.replicate 32 0xAA,
           functionSelectorBytes := function_selector "create_order",
           amount := 1000,
           assetId := List.replicate 32 0xBB,
           gas := GAS_MAX,
           callData := some [1, 2, 3, 4, 5, 6, 7, 8] }]).length = 148 ∧
    (148 : Nat) ≠ 101 :=
  ⟨rfl, by norm_num⟩

/-- C6 witness: the layout theorem applied to the fixture call. -/
theorem build_actions_single_call_layout_witness :
    build_actions_signing_bytes 42
        [{ contractId := List.replicate 32 0xAA,
           functionSelectorBytes := function_selector "create_order",
           amount := 1000,
           assetId := List.replicate 32 0xBB,
           gas := GAS_MAX,
           callData := some [1, 2, 3, 4, 5, 6, 7, 8] }] =
      u64_be 42 ++ u64_be 1 ++
        (List.replicate 32 0xAA ++ u64_be (function_selector "create_order").length ++
          function_selector "create_order" ++ u64_be 1000 ++ List.replicate 32 0xBB ++
          u64_be GAS_MAX ++ (u64_be 1 ++ u64_be 8 ++ [1, 2, 3, 4, 5, 6, 7, 8])) ∧
    (build_actions_signing_bytes 42
        [{ contractId := List.replicate 32 0xAA,
           functionSelectorBytes := function_selector "create_order",
           amount := 1000,
           assetId := List.replicate 32 0xBB,
           gas := GAS_MAX,
           callData := some [1, 2, 3, 4, 5, 6, 7, 8] }]).length =
      128 + (function_selector "create_order").length :=
  build_actions_single_call_layout _ [1, 2, 3, 4, 5, 6, 7, 8]
    rfl rfl rfl rfl (by simp) (by simp)

/-! ## C10: zero expiry is never treated as expired -/

/-- C10: a session whose `expiry` field is 0 always passes the local expiry
check (which only rejects when `expiry > 0 && now >= expiry`), and
`batch_actions_multi` proceeds to the network for every current time. -/
theorem zero_expiry_never_expired {ρ : Type} (env : BatchEnv ρ) (now : Nat)
    (session : Session) (h : session.expiry = 0) :
    check_session_expiry now session = .ok () ∧
    (batch_actions_multi env session).2.2 ≠ [] := by
  have hchk : ∀ t, check_session_expiry t session = .ok () := by
    intro t
    simp [check_session_expiry, h]
  refine ⟨hchk now, ?_⟩
  unfold batch_actions_multi
  rw [hchk env.now]
  rcases env.prepare with e | u
  · simp
  · rcases env.submit with e | r <;> simp

/-- C10 witness: a concrete zero-expiry session with a successful submit. -/
theorem zero_expiry_never_expired_witness :
    check_session_expiry 123456789 (⟨0, 5⟩ : Session) = .ok () ∧
    (batch_actions_multi (⟨123456789, .ok (), .ok 7, .ok 9⟩ : BatchEnv Nat)
        (⟨0, 5⟩ : Session)).2.2 ≠ [] :=
  zero_expiry_never_expired ⟨123456789, .ok (), .ok 7, .ok 9⟩ 123456789 ⟨0, 5⟩ rfl

/-! ## C9: local session-expiry rejection -/

/-- C9 (amended): when the session's expiry is positive and has passed
(`now >= expiry`), both `batch_actions_multi` and `cancel_all_orders`
return the session-expired error locally: no network operation runs and the
session (in particular its nonce) is unchanged. -/
theorem session_expired_local_reject {ρ : Type} (env : BatchEnv ρ)
    (session : Session) (now : Nat) (marketFetch : Except O2Error Unit)
    (ordersFetch : Except O2Error (List String)) (batches : Nat → BatchEnv ρ)
    (hpos : 0 < session.expiry) (h1 : session.expiry ≤ env.now)
    (h2 : session.expiry ≤ now) :
    batch_actions_multi env session =
      (.error (.sessionExpired
        "Session has expired. Create a new session before submitting actions."),
        session, []) ∧
    cancel_all_orders now marketFetch ordersFetch batches session =
      (.error (.sessionExpired
        "Session has expired. Create a new session before submitting actions."),
        session, []) := by
  have hchk : ∀ t, session.expiry ≤ t →
      check_session_expiry t session = .error (.sessionExpired
        "Session has expired. Create a new session before submitting actions.") := by
    intro t ht
    simp [check_session_expiry, hpos, ht]
  constructor
  · unfold batch_actions_multi
    rw [hchk env.now h1]
  · unfold cancel_all_orders
    rw [hchk now h2]

/-- C9 witness: a concrete expired session rejected by both entry points. -/
theorem session_expired_local_reject_witness :
    batch_actions_multi (⟨1000, .ok (), .ok 7, .ok 9⟩ : BatchEnv Nat)
        (⟨500, 5⟩ : Session) =
      (.error (.sessionExpired
        "Session has expired. Create a new session before submitting actions."),
        ⟨500, 5⟩, []) ∧
    cancel_all_orders 1000 (.ok ()) (.ok ["a"])
        (fun _ => (⟨1000, .ok (), .ok 7, .ok 9⟩ : BatchEnv Nat))
        (⟨500, 5⟩ : Session) =
      (.error (.sessionExpired
        "Session has expired. Create a new session before submitting actions."),
        ⟨500, 5⟩, []) :=
  session_expired_local_reject _ _ 1000 _ _ _ (by norm_num) (by norm_num) (by norm_num)

/-- C9 counterexample: an expiry timestamp of 0 lies in the past
(`0 < now = 1000`), yet submission is not rejected: the batch proceeds to the
network and succeeds. -/
theorem session_expired_zero_expiry_not_rejected :
    (0 : Nat) < 1000 ∧
    batch_actions_multi (⟨1000, .ok (), .ok 7, .ok 9⟩ : BatchEnv Nat)
        (⟨0, 5⟩ : Session) =
      (.ok 7, ⟨0, 6⟩, [.marketsFetch, .submitCall]) :=
  ⟨by norm_num, rfl⟩

/-! ## C1: nonce management around submission -/

/-- C1 (amended): once the expiry check and preparation succeed, a
submission attempt manages the session nonce as follows.  On submit success
the nonce is incremented by exactly one and no nonce re-fetch occurs.  On
submit failure the nonce is incremented by one and then overwritten by the
freshly fetched canonical account nonce when the fetch succeeds, and left at
the incremented value when the fetch fails; the original error is returned
unmodified either way. -/
theorem batch_nonce_discipline {ρ : Type} (env : BatchEnv ρ) (session : Session)
    (hexp : check_session_expiry env.now session = .ok ())
    (hprep : env.prepare = .ok ()) :
    (∀ r, env.submit = .ok r →
      batch_actions_multi env session =
        (.ok r, { session with nonce := session.nonce + 1 },
          [.marketsFetch, .submitCall])) ∧
    (∀ e, env.submit = .error e →
      batch_actions_multi env session =
        (.error e,
          (refresh_nonce env.accountNonce
            { session with nonce := session.nonce + 1 }).2,
          [.marketsFetch, .submitCall, .nonceFetch]) ∧
      (refresh_nonce env.accountNonce
          { session with nonce := session.nonce + 1 }).2.nonce =
        (match env.accountNonce with
         | .ok n => n
         | .error _ => session.nonce + 1)) := by
  constructor
  · intro r hr
    unfold batch_actions_multi
    rw [hexp, hprep, hr]
  · intro e he
    constructor
    · unfold batch_actions_multi
      rw [hexp, hprep, he]
    · rcases env.accountNonce with e' | n <;> simp [refresh_nonce]

/-- C1 witness: a failed submission with a successful nonce re-fetch; the
error is surfaced unmodified and the nonce ends at the fetched value. -/
theorem batch_nonce_discipline_witness :
    batch_actions_multi
        (⟨50, .ok (), .error (.other "boom"), .ok 41⟩ : BatchEnv Nat)
        (⟨100, 7⟩ : Session) =
      (.error (.other "boom"),
        (refresh_nonce (.ok 41) (⟨100, 8⟩ : Session)).2,
        [.marketsFetch, .submitCall, .nonceFetch]) ∧
    (refresh_nonce (.ok 41) (⟨100, 8⟩ : Session)).2.nonce = 41 :=
  (batch_nonce_discipline
      (⟨50, .ok (), .error (.other "boom"), .ok 41⟩ : BatchEnv Nat)
      (⟨100, 7⟩ : Session) (by simp [check_session_expiry]) rfl).2
    (.other "boom") rfl

/-- C1 counterexample: on a successful submission the nonce is incremented
but never replaced by the canonical account nonce, although that fetch would
have succeeded and returned 100: the final nonce is 6, and no nonce-fetch
network operation runs. -/
theorem batch_success_nonce_not_refetched :
    batch_actions_multi (⟨1000, .ok (), .ok 7, .ok 100⟩ : BatchEnv Nat)
        (⟨0, 5⟩ : Session) =
      (.ok 7, ⟨0, 6⟩, [.marketsFetch, .submitCall]) ∧
    (6 : Nat) ≠ 100 ∧
    (refresh_nonce (.ok 100) (⟨0, 6⟩ : Session)).2.nonce = 100 :=
  ⟨rfl, by norm_num, rfl⟩

/-! ## C7: scale/format round trip -/

/-- C7: whenever scaling succeeds, the display round-trip re-scales to the
same chain value (`scale(format(scale d)) = scale d`), the formatted value
never exceeds the original, and it differs from the original by at most one
unit at `max_precision`. -/
theorem scale_format_round_trip (decimals maxPrecision : Nat) (q : ℚ) (n : Nat)
    (h : scale_value decimals maxPrecision q = .ok n) :
    scale_value decimals maxPrecision (format_value decimals n) = .ok n ∧
    format_value decimals n ≤ q ∧
    q - format_value decimals n ≤ 1 / (10 ^ maxPrecision : ℚ) := by
  simp only [scale_value] at h
  split_ifs at h with h1 h2 h3 h4 h5
  simp only [Except.ok.injEq] at h
  set s : ℤ := ⌊q * (10 ^ decimals : ℚ)⌋ with hs
  set T : Nat := 10 ^ (decimals - maxPrecision) with hT
  have hT0 : 0 < T := Nat.pos_pow_of_pos _ (by norm_num)
  have hF0 : (0 : ℚ) < (10 ^ decimals : ℚ) := by positivity
  have hsnn : 0 ≤ s := not_lt.mp h2
  have hdiv : T ∣ n := ⟨s.toNat / T, by rw [← h]; ring⟩
  have hnle : n ≤ s.toNat := h ▸ Nat.div_mul_le_self _ _
  have hnlt : ¬ 2 ^ 64 ≤ n := fun hc => h3 (le_trans hc hnle)
  have hcastT : ((s.toNat : ℤ) : ℚ) = (s : ℚ) := by
    rw [Int.toNat_of_nonneg hsnn]
  have hstq : (s.toNat : ℚ) = (s : ℚ) := by
    rw [← hcastT]; push_cast; ring
  refine ⟨?_, ?_, ?_⟩
  · unfold scale_value format_value
    rw [div_mul_cancel₀ _ (ne_of_gt hF0), Int.floor_natCast]
    have hok : ¬ ((n : ℤ) < 0) := not_lt.mpr (Int.natCast_nonneg n)
    simp only [h1, if_false, hok, Int.toNat_natCast, hnlt, h4, h5, ← hT]
    rw [Nat.div_mul_cancel hdiv]
  · have hfl : (s : ℚ) ≤ q * (10 ^ decimals : ℚ) := Int.floor_le _
    have hnq : (n : ℚ) ≤ q * (10 ^ decimals : ℚ) := by
      calc (n : ℚ) ≤ (s.toNat : ℚ) := by exact_mod_cast hnle
        _ = (s : ℚ) := hstq
        _ ≤ q * (10 ^ decimals : ℚ) := hfl
    unfold format_value
    rw [div_le_iff hF0]
    exact hnq
  · have hfl2 : q * (10 ^ decimals : ℚ) < (s : ℚ) + 1 := Int.lt_floor_add_one _
    have hdm := Nat.div_add_mod s.toNat T
    have hmod : s.toNat % T < T := Nat.mod_lt _ hT0
    have hcm : T * (s.toNat / T) = n := by rw [← h]; ring
    have hnat : n + s.toNat % T = s.toNat := by omega
    have hnq : (n : ℚ) + ((s.toNat % T : Nat) : ℚ) = (s.toNat : ℚ) := by
      exact_mod_cast congrArg (fun x : Nat => (x : ℚ)) hnat
    have hmq : ((s.toNat % T : Nat) : ℚ) ≤ (T : ℚ) - 1 := by
      have : (s.toNat % T) + 1 ≤ T := hmod
      have h' : ((s.toNat % T : Nat) : ℚ) + 1 ≤ (T : ℚ) := by exact_mod_cast this
      linarith
    have hkey : q * (10 ^ decimals : ℚ) - (n : ℚ) < (T : ℚ) := by
      have : (s : ℚ) = (n : ℚ) + ((s.toNat % T : Nat) : ℚ) := by
        rw [hnq, hstq]
      linarith
    have hTF : (T : ℚ) / (10 ^ decimals : ℚ) = 1 / (10 ^ maxPrecision : ℚ) := by
      have hdexp : decimals = (decimals - maxPrecision) + maxPrecision := by omega
      have hTQ : (T : ℚ) = (10 : ℚ) ^ (decimals - maxPrecision) := by
        rw [hT]; push_cast; ring
      rw [hTQ]
      rw [show (10 : ℚ) ^ decimals = (10 : ℚ) ^ ((decimals - maxPrecision) + maxPrecision) from by rw [← hdexp]]
      rw [pow_add]
      have hp1 : (0 : ℚ) < (10 : ℚ) ^ (decimals - maxPrecision) := by positivity
      have hp2 : (0 : ℚ) < (10 : ℚ) ^ maxPrecision := by positivity
      field_simp
    unfold format_value
    have hsub : q - (n : ℚ) / (10 ^ decimals : ℚ) =
        (q * (10 ^ decimals : ℚ) - (n : ℚ)) / (10 ^ decimals : ℚ) := by
      field_simp
    rw [hsub, ← hTF]
    exact le_of_lt ((div_lt_div_iff_of_pos_right hF0).mpr hkey)

/-- C7 witness: scaling "3.5" with decimals = 1, max_precision = 0 yields 30
("3.0"); the round trip re-scales to 30 and the display error is within one
unit at max_precision. -/
theorem scale_format_round_trip_witness :
    scale_value 1 0 (format_value 1 30) = .ok 30 ∧
    format_value 1 30 ≤ (35 : ℚ) / 10 ∧
    (35 : ℚ) / 10 - format_value 1 30 ≤ 1 / (10 ^ (0 : Nat) : ℚ) :=
  scale_format_round_trip 1 0 ((35 : ℚ) / 10) 30 (by
    norm_num [scale_value]
    decide)

/-! ## C3: compact-signature low-s normalization -/

theorem fromBytesLE_append_singleton (xs : List Nat) (b : Nat) :
    fromBytesLE (xs ++ [b]) = fromBytesLE xs + b * 256 ^ xs.length := by
  induction xs with
  | nil => simp [fromBytesLE]
  | cons x t ih => simp [fromBytesLE, ih, List.length_cons]; ring

theorem fromBytesBE_eq_reverse (l : List Nat) :
    fromBytesBE l = fromBytesLE l.reverse := by
  induction l with
  | nil => simp [fromBytesBE, fromBytesLE]
  | cons b t ih =>
      simp [fromBytesBE, List.reverse_cons, fromBytesLE_append_singleton, ih]
      ring

theorem fromBytesBE_lt_pow (l : List Nat) (hb : ∀ x ∈ l, x < 256) :
    fromBytesBE l < 256 ^ l.length := by
  induction l with
  | nil => simp [fromBytesBE]
  | cons b t ih =>
      have hb0 : b < 256 := hb b (by simp)
      have ht : fromBytesBE t < 256 ^ t.length := ih (fun x hx => hb x (by simp [hx]))
      have : b * 256 ^ t.length + fromBytesBE t < (b + 1) * 256 ^ t.length := by
        nlinarith
      calc fromBytesBE (b :: t) = b * 256 ^ t.length + fromBytesBE t := rfl
        _ < (b + 1) * 256 ^ t.length := this
        _ ≤ 256 * 256 ^ t.length := by
            have : b + 1 ≤ 256 := hb0
            exact Nat.mul_le_mul_right _ this
        _ = 256 ^ (t.length + 1) := by ring
        _ = 256 ^ (b :: t).length := by simp [List.length_cons]

theorem gt_be_iff (a b : List Nat) (hlen : a.length = b.length)
    (ha : ∀ x ∈ a, x < 256) (hb : ∀ x ∈ b, x < 256) :
    gt_be a b = true ↔ fromBytesBE b < fromBytesBE a := by
  induction a generalizing b with
  | nil =>
      rcases b with _ | ⟨y, ys⟩
      · simp [gt_be, fromBytesBE]
      · simp at hlen
  | cons x xs ih =>
      rcases b with _ | ⟨y, ys⟩
      · simp at hlen
      · have hlen' : xs.length = ys.length := by simpa using hlen
        have hx : x < 256 := ha x (by simp)
        have hy : y < 256 := hb y (by simp)
        have hX : fromBytesBE xs < 256 ^ xs.length :=
          fromBytesBE_lt_pow xs (fun z hz => ha z (by simp [hz]))
        have hY : fromBytesBE ys < 256 ^ ys.length :=
          fromBytesBE_lt_pow ys (fun z hz => hb z (by simp [hz]))
        have hYX : fromBytesBE ys < 256 ^ xs.length := by rw [hlen']; exact hY
        simp only [gt_be, fromBytesBE, hlen']
        by_cases h1 : y < x
        · simp only [if_pos h1, true_iff]
          calc y * 256 ^ ys.length + fromBytesBE ys
              < (y + 1) * 256 ^ ys.length := by nlinarith [pow_pos (by norm_num : 0 < 256) ys.length]
            _ ≤ x * 256 ^ ys.length := Nat.mul_le_mul_right _ h1
            _ ≤ x * 256 ^ ys.length + fromBytesBE xs := Nat.le_add_right _ _
        · by_cases h2 : x < y
          · simp only [if_neg h1, if_pos h2, Bool.false_eq_true, false_iff, not_lt]
            calc x * 256 ^ ys.length + fromBytesBE xs
                ≤ x * 256 ^ ys.length + 256 ^ ys.length := by
                  have := hX
                  rw [hlen'] at this
                  omega
              _ = (x + 1) * 256 ^ ys.length := by ring
              _ ≤ y * 256 ^ ys.length := Nat.mul_le_mul_right _ h2
              _ ≤ y * 256 ^ ys.length + fromBytesBE ys := Nat.le_add_right _ _
          · have hxy : x = y := by omega
            subst hxy
            simp only [if_neg h1, if_neg h2]
            rw [ih ys hlen' (fun z hz => ha z (by simp [hz])) (fun z hz => hb z (by simp [hz]))]
            constructor
            · intro hlt
              omega
            · intro hlt
              omega

theorem subBytesLE_spec (a : List Nat) : ∀ (b : List Nat) (borrow : Nat),
    a.length = b.length → (∀ x ∈ a, x < 256) → (∀ x ∈ b, x < 256) →
    borrow ≤ 1 → fromBytesLE b + borrow ≤ fromBytesLE a →
    fromBytesLE (subBytesLE a b borrow) = fromBytesLE a - fromBytesLE b - borrow ∧
    (∀ x ∈ subBytesLE a b borrow, x < 256) ∧
    (subBytesLE a b borrow).length = a.length := by
  induction a with
  | nil =>
      intro b borrow hlen _ _ _ _
      rcases b with _ | ⟨y, ys⟩
      · simp [subBytesLE, fromBytesLE]
      · simp at hlen
  | cons x xs ih =>
      intro b borrow hlen ha hb hbr hle
      rcases b with _ | ⟨y, ys⟩
      · simp at hlen
      · have hlen' : xs.length = ys.length := by simpa using hlen
        have hx : x < 256 := ha x (by simp)
        have hy : y < 256 := hb y (by simp)
        have hxs : ∀ z ∈ xs, z < 256 := fun z hz => ha z (by simp [hz])
        have hys : ∀ z ∈ ys, z < 256 := fun z hz => hb z (by simp [hz])
        have hlev : y + 256 * fromBytesLE ys + borrow ≤ x + 256 * fromBytesLE xs := by
          simpa [fromBytesLE] using hle
        simp only [subBytesLE, fromBytesLE]
        by_cases hcase : y + borrow ≤ x
        · have hdiff : (x + 65536 - y - borrow) % 65536 = x - y - borrow := by omega
          have hnb : ¬ 255 < (x + 65536 - y - borrow) % 65536 := by omega
          have hrec : fromBytesLE ys + 0 ≤ fromBytesLE xs := by omega
          obtain ⟨hv, hby, hln⟩ := ih ys 0 hlen' hxs hys (by omega) hrec
          rw [if_neg hnb]
          refine ⟨?_, ?_, ?_⟩
          · rw [hv]
            omega
          · intro z hz
            rcases List.mem_cons.mp hz with hz | hz
            · omega
            · exact hby z hz
          · simp [hln]
        · have hnb : 255 < (x + 65536 - y - borrow) % 65536 := by omega
          have hrec : fromBytesLE ys + 1 ≤ fromBytesLE xs := by omega
          obtain ⟨hv, hby, hln⟩ := ih ys 1 hlen' hxs hys (by omega) hrec
          rw [if_pos hnb]
          refine ⟨?_, ?_, ?_⟩
          · rw [hv]
            omega
          · intro z hz
            rcases List.mem_cons.mp hz with hz | hz
            · omega
            · exact hby z hz
          · simp [hln]

theorem negate_s_spec (s : List Nat) (hlen : s.length = 32)
    (hb : ∀ x ∈ s, x < 256) (hle : fromBytesBE s ≤ secpOrder) :
    fromBytesBE (negate_s s) = secpOrder - fromBytesBE s ∧
    (∀ x ∈ negate_s s, x < 256) ∧ (negate_s s).length = 32 := by
  have horder : fromBytesBE SECP256K1_ORDER = secpOrder := by decide
  have hordb : ∀ x ∈ SECP256K1_ORDER, x < 256 := by decide
  have hordrevb : ∀ x ∈ SECP256K1_ORDER.reverse, x < 256 := by
    intro x hx
    exact hordb x (List.mem_reverse.mp hx)
  have hsrevb : ∀ x ∈ s.reverse, x < 256 := by
    intro x hx
    exact hb x (List.mem_reverse.mp hx)
  have hlenr : SECP256K1_ORDER.reverse.length = s.reverse.length := by
    simp [hlen]
    decide
  have hlev : fromBytesLE s.reverse + 0 ≤ fromBytesLE SECP256K1_ORDER.reverse := by
    rw [← fromBytesBE_eq_reverse, ← fromBytesBE_eq_reverse, horder]
    omega
  obtain ⟨hv, hby, hln⟩ :=
    subBytesLE_spec SECP256K1_ORDER.reverse s.reverse 0 hlenr hordrevb hsrevb
      (by omega) hlev
  refine ⟨?_, ?_, ?_⟩
  · rw [negate_s, fromBytesBE_eq_reverse, List.reverse_reverse, hv,
      ← fromBytesBE_eq_reverse, ← fromBytesBE_eq_reverse, horder]
    omega
  · intro x hx
    exact hby x (List.mem_reverse.mp hx)
  · rw [negate_s, List.length_reverse, hln]
    simp [hlen]
    decide

theorem head_byte_lt_128 (b0 : Nat) (rest : List Nat)
    (hlen : (b0 :: rest).length = 32)
    (hv : fromBytesBE (b0 :: rest) ≤ secpOrder / 2) : b0 < 128 := by
  have hrl : rest.length = 31 := by simpa using hlen
  have hpow : (256 : Nat) ^ 31 =
      452312848583266388373324160190187140051835877600158453279131187530910662656 := by
    norm_num
  have hval : fromBytesBE (b0 :: rest) = b0 * 256 ^ 31 + fromBytesBE rest := by
    simp [fromBytesBE, hrl]
  rw [hpow] at hval
  have hhl : secpOrder / 2 <
      128 * 452312848583266388373324160190187140051835877600158453279131187530910662656 := by
    decide
  by_contra hge
  push_neg at hge
  have hmul : 128 *
      (452312848583266388373324160190187140051835877600158453279131187530910662656 : Nat) ≤
      b0 * 452312848583266388373324160190187140051835877600158453279131187530910662656 :=
    Nat.mul_le_mul_right _ hge
  omega

/-- C3: for any raw recoverable triple `(r, s, recovery_id)` with `s` below
the curve order and a 1-bit recovery id, the packed compact signature is
`r ++ final_s` where: the normalized `s` equals `curve_order - s` with the
recovery bit flipped when `s > curve_order/2` and is unchanged otherwise;
the packed first byte of `final_s` carries the (possibly flipped) recovery
id in its top bit (`b0 / 128`) over the low 7 bits of the normalized `s`;
and the `s` value with the recovery bit cleared is always
`≤ curve_order/2`. -/
theorem fuel_compact_pack_spec (r s : List Nat) (rid : Nat)
    (hr : r.length = 32) (hs : s.length = 32) (hb : ∀ x ∈ s, x < 256)
    (hlt : fromBytesBE s < secpOrder) (hrid : rid < 2) :
    ∃ b0 rest,
      fuel_compact_pack r s rid = r ++ b0 :: rest ∧
      (b0 :: rest).length = 32 ∧
      fromBytesBE ((b0 &&& 0x7F) :: rest) =
        (if secpOrder / 2 < fromBytesBE s then secpOrder - fromBytesBE s
         else fromBytesBE s) ∧
      b0 / 128 = (if secpOrder / 2 < fromBytesBE s then rid ^^^ 1 else rid) ∧
      fromBytesBE ((b0 &&& 0x7F) :: rest) ≤ secpOrder / 2 := by
  have hhalfval : fromBytesBE SECP256K1_ORDER_HALF = secpOrder / 2 := by decide
  have hhalfb : ∀ x ∈ SECP256K1_ORDER_HALF, x < 256 := by decide
  have hhalflen : s.length = SECP256K1_ORDER_HALF.length := by
    rw [hs]; decide
  have horder2 : secpOrder = 2 * (secpOrder / 2) + 1 := by decide
  have hgtiff := gt_be_iff s SECP256K1_ORDER_HALF hhalflen hb hhalfb
  rw [hhalfval] at hgtiff
  have d0 : ∀ b, b < 128 →
      (((0 <<< 7) % 256 ||| (b &&& 127)) &&& 127) = b ∧
      ((0 <<< 7) % 256 ||| (b &&& 127)) / 128 = 0 := by decide
  have d1 : ∀ b, b < 128 →
      (((1 <<< 7) % 256 ||| (b &&& 127)) &&& 127) = b ∧
      ((1 <<< 7) % 256 ||| (b &&& 127)) / 128 = 1 := by decide
  by_cases hc : secpOrder / 2 < fromBytesBE s
  · have hgt : gt_be s SECP256K1_ORDER_HALF = true := hgtiff.mpr hc
    obtain ⟨hnv, hnb, hnl⟩ := negate_s_spec s hs hb (le_of_lt hlt)
    rcases hne : negate_s s with _ | ⟨c, rest⟩
    · rw [hne] at hnl
      simp at hnl
    · rw [hne] at hnv hnb hnl
      have hval2 : fromBytesBE (c :: rest) ≤ secpOrder / 2 := by
        rw [hnv]; omega
      have hc128 : c < 128 := head_byte_lt_128 c rest hnl hval2
      have hrid' : rid ^^^ 1 = 0 ∨ rid ^^^ 1 = 1 := by
        have : rid = 0 ∨ rid = 1 := by omega
        rcases this with h | h <;> subst h <;> simp
      refine ⟨((rid ^^^ 1) <<< 7) % 256 ||| (c &&& 127), rest, ?_, ?_, ?_, ?_, ?_⟩
      · simp only [fuel_compact_pack, hgt, if_true, hne]
      · simpa using hnl
      · rcases hrid' with h | h <;> rw [h]
        · rw [(d0 c hc128).1, if_pos hc]
          exact hnv
        · rw [(d1 c hc128).1, if_pos hc]
          exact hnv
      · rcases hrid' with h | h <;> rw [h]
        · rw [(d0 c hc128).2, if_pos hc]
        · rw [(d1 c hc128).2, if_pos hc]
      · rcases hrid' with h | h <;> rw [h]
        · rw [(d0 c hc128).1]
          exact hval2
        · rw [(d1 c hc128).1]
          exact hval2
  · have hgt : gt_be s SECP256K1_ORDER_HALF = false := by
      rcases hgf : gt_be s SECP256K1_ORDER_HALF with _ | _
      · rfl
      · exact absurd (hgtiff.mp hgf) hc
    rcases hse : s with _ | ⟨c, rest⟩
    · rw [hse] at hs
      simp at hs
    · rw [hse] at hb hc hs hgt
      have hval2 : fromBytesBE (c :: rest) ≤ secpOrder / 2 := not_lt.mp hc
      have hc128 : c < 128 := head_byte_lt_128 c rest hs hval2
      have hridc : rid = 0 ∨ rid = 1 := by omega
      refine ⟨(rid <<< 7) % 256 ||| (c &&& 127), rest, ?_, ?_, ?_, ?_, ?_⟩
      · simp only [fuel_compact_pack, hse, hgt, Bool.false_eq_true, if_false]
      · simpa using hs
      · rcases hridc with h | h <;> subst h
        · rw [(d0 c hc128).1, if_neg hc]
        · rw [(d1 c hc128).1, if_neg hc]
      · rcases hridc with h | h <;> subst h
        · rw [(d0 c hc128).2, if_neg hc]
        · rw [(d1 c hc128).2, if_neg hc]

      · rcases hridc with h | h <;> subst h
        · rw [(d0 c hc128).1]
          exact hval2
        · rw [(d1 c hc128).1]
          exact hval2

/-- C3 witness: packing a concrete high-s triple (`s = curve_order - 1`,
recovery id 0) flips the recovery bit and stores `curve_order - s = 1`. -/
theorem fuel_compact_pack_spec_witness :
    ∃ b0 rest,
      fuel_compact_pack (List.replicate 32 170) (bytesBE 32 (secpOrder - 1)) 0 =
        List.replicate 32 170 ++ b0 :: rest ∧
      (b0 :: rest).length = 32 ∧
      fromBytesBE ((b0 &&& 0x7F) :: rest) =
        (if secpOrder / 2 < fromBytesBE (bytesBE 32 (secpOrder - 1)) then
          secpOrder - fromBytesBE (bytesBE 32 (secpOrder - 1))
         else fromBytesBE (bytesBE 32 (secpOrder - 1))) ∧
      b0 / 128 =
        (if secpOrder / 2 < fromBytesBE (bytesBE 32 (secpOrder - 1)) then 0 ^^^ 1
         else 0) ∧
      fromBytesBE ((b0 &&& 0x7F) :: rest) ≤ secpOrder / 2 :=
  fuel_compact_pack_spec (List.replicate 32 170) (bytesBE 32 (secpOrder - 1)) 0
    (by decide) (by decide) (by decide) (by decide) (by decide)

/-! ## C8: revert decoder -/

theorem isPrefixOf_iff_exists (p l : List Char) :
    List.isPrefixOf p l = true ↔ ∃ t, l = p ++ t := by
  induction p generalizing l with
  | nil => simp [List.isPrefixOf]
  | cons a p ih =>
      rcases l with _ | ⟨b, t⟩
      · simp [List.isPrefixOf]
      · simp only [List.isPrefixOf, Bool.and_eq_true, beq_iff_eq, ih,
          List.cons_append, List.cons.injEq]
        constructor
        · rintro ⟨hab, u, hu⟩
          exact ⟨u, hab.symm, hu⟩
        · rintro ⟨u, hab, hu⟩
          exact ⟨hab.symm, u, hu⟩

theorem listContainsSub_iff (hay sub : List Char) :
    listContainsSub hay sub = true ↔ ∃ pre post, hay = pre ++ (sub ++ post) := by
  induction hay with
  | nil =>
      simp only [listContainsSub, List.isEmpty_iff]
      constructor
      · intro h
        exact ⟨[], [], by simp [h]⟩
      · rintro ⟨pre, post, h⟩
        rcases List.append_eq_nil.mp h.symm with ⟨h1, h2⟩
        exact (List.append_eq_nil.mp h2).1
  | cons c t ih =>
      simp only [listContainsSub, Bool.or_eq_true, isPrefixOf_iff_exists, ih]
      constructor
      · rintro (⟨u, hu⟩ | ⟨pre, post, h⟩)
        · exact ⟨[], u, by simp [hu]⟩
        · exact ⟨c :: pre, post, by simp [h]⟩
      · rintro ⟨pre, post, h⟩
        rcases pre with _ | ⟨p0, pre⟩
        · exact Or.inl ⟨post, by simpa using h⟩
        · simp only [List.cons_append, List.cons.injEq] at h
          exact Or.inr ⟨pre, post, h.2⟩

theorem strData_append (x y : String) : (x ++ y).data = x.data ++ y.data := by
  rcases x with ⟨a⟩
  rcases y with ⟨b⟩
  rfl

theorem strContains_iff (hay sub : String) :
    strContains hay sub = true ↔
      ∃ pre post, hay.data = pre ++ (sub.data ++ post) :=
  listContainsSub_iff hay.data sub.data

theorem strContains_refl (s : String) : strContains s s = true :=
  (strContains_iff s s).mpr ⟨[], [], by simp⟩

theorem strContains_append_left (a b s : String) (h : strContains a s = true) :
    strContains (a ++ b) s = true := by
  obtain ⟨pre, post, hd⟩ := (strContains_iff a s).mp h
  exact (strContains_iff _ s).mpr
    ⟨pre, post ++ b.data, by simp [strData_append, hd]⟩

theorem strContains_append_right (a b s : String) (h : strContains b s = true) :
    strContains (a ++ b) s = true := by
  obtain ⟨pre, post, hd⟩ := (strContains_iff b s).mp h
  exact (strContains_iff _ s).mpr
    ⟨a.data ++ pre, post, by simp [strData_append, hd]⟩

theorem strContains_trans (a b c : String) (hab : strContains a b = true)
    (hbc : strContains b c = true) : strContains a c = true := by
  obtain ⟨p1, q1, h1⟩ := (strContains_iff a b).mp hab
  obtain ⟨p2, q2, h2⟩ := (strContains_iff b c).mp hbc
  exact (strContains_iff a c).mpr ⟨p1 ++ p2, q2 ++ q1, by simp [h1, h2]⟩

theorem joinSep_mem_contains (l : List String) (x : String) (hx : x ∈ l) :
    strContains (joinSep ", " l) x = true := by
  induction l with
  | nil => cases hx
  | cons y ys ih =>
      rcases ys with _ | ⟨z, zs⟩
      · rcases List.mem_singleton.mp hx with rfl
        exact strContains_refl x
      · rcases List.mem_cons.mp hx with rfl | hx'
        · show strContains (x ++ ", " ++ joinSep ", " (z :: zs)) x = true
          exact strContains_append_left _ _ _
            (strContains_append_left _ _ _ (strContains_refl x))
        · show strContains (y ++ ", " ++ joinSep ", " (z :: zs)) x = true
          exact strContains_append_right _ _ _ (ih hx')

theorem decode_none_of_not_sentinel (raw : Nat) (ctx : String)
    (h : sentinelOk raw = false) : decode_revert_code raw ctx = none := by
  have h' : ¬ ((raw &&& 0xffffffffffff0000 = 0xffffffffffff0000) ∧
      (raw &&& 0xffff ≠ 0)) := by
    simpa [sentinelOk, decide_eq_false_iff_not] using h
  unfold decode_revert_code
  by_cases hA : raw &&& 0xffffffffffff0000 = 0xffffffffffff0000
  · have hB : raw &&& 0xffff = 0 := by
      by_contra hB
      exact h' ⟨hA, hB⟩
    rw [if_neg (not_not.mpr hA), if_pos hB]
  · rw [if_pos hA]

theorem firstDecoded_append_skip (pre l : List Nat) (ctx : String)
    (h : ∀ raw ∈ pre, sentinelOk raw = false) :
    firstDecoded (pre ++ l) ctx = firstDecoded l ctx := by
  induction pre with
  | nil => simp
  | cons x xs ih =>
      have hx : decode_revert_code x ctx = none :=
        decode_none_of_not_sentinel x ctx (h x (by simp))
      simp only [List.cons_append, firstDecoded, hx]
      exact ih (fun raw hr => h raw (by simp [hr]))

theorem firstDecoded_none (codes : List Nat) (ctx : String)
    (h : ∀ raw ∈ codes, sentinelOk raw = false) :
    firstDecoded codes ctx = none := by
  have := firstDecoded_append_skip codes [] ctx h
  simpa [firstDecoded] using this

theorem infer_createOrder (ctx : String)
    (h : strContains ctx "CreateOrder" = true) :
    infer_enum_from_context ctx =
      some "contract_schema::order_book::OrderCreationError" := by
  unfold infer_enum_from_context
  rw [h]
  simp

theorem decode_raw_opf (ctx : String)
    (hinf : infer_enum_from_context ctx =
      some "contract_schema::order_book::OrderCreationError") :
    decode_revert_code 18446744073709486089 ctx =
      some ("contract_schema::order_book::OrderCreationError" ++ "::" ++
        "OrderPartiallyFilled" ++ " (ordinal=" ++ toString (9 : Nat) ++
        ", raw=0x" ++ hexPad16 18446744073709486089 ++ ")") := by
  simp only [decode_revert_code]
  rw [if_neg (by decide :
    ¬ ((18446744073709486089 : Nat) &&& 0xffffffffffff0000 ≠ 0xffffffffffff0000))]
  rw [show ((18446744073709486089 : Nat) &&& 0xffff) = 9 from by decide]
  rw [if_neg (by decide : ¬ (9 : Nat) = 0)]
  rw [hinf]
  simp only [show lookup_variant "contract_schema::order_book::OrderCreationError" 9 =
    some "OrderPartiallyFilled" from by decide]

theorem augment_no_sentinel_unchanged (message reason : String)
    (receipts : Option String)
    (h : ∀ raw ∈ extract_revert_codes (revertContext message reason receipts),
      sentinelOk raw = false) :
    augment_revert_reason message reason receipts = reason := by
  simp only [augment_revert_reason]
  rw [firstDecoded_none _ _ h]

theorem augment_createOrder_opf (message reason : String)
    (receipts : Option String)
    (hcr : strContains (revertContext message reason receipts) "CreateOrder" = true)
    (hfirst : ∃ pre post,
      extract_revert_codes (revertContext message reason receipts) =
        pre ++ (18446744073709486089 :: post) ∧
      ∀ raw ∈ pre, sentinelOk raw = false) :
    strContains (augment_revert_reason message reason receipts)
      "OrderPartiallyFilled" = true := by
  obtain ⟨pre, post, hsplit, hpre⟩ := hfirst
  have hdec := decode_raw_opf _ (infer_createOrder _ hcr)
  have hfd : firstDecoded
      (extract_revert_codes (revertContext message reason receipts))
      (revertContext message reason receipts) =
      some ("contract_schema::order_book::OrderCreationError" ++ "::" ++
        "OrderPartiallyFilled" ++ " (ordinal=" ++ toString (9 : Nat) ++
        ", raw=0x" ++ hexPad16 18446744073709486089 ++ ")") := by
    rw [hsplit, firstDecoded_append_skip pre _ _ hpre]
    simp only [firstDecoded, hdec]
  have hmo : strContains
      ("contract_schema::order_book::OrderCreationError" ++ "::" ++
        "OrderPartiallyFilled" ++ " (ordinal=" ++ toString (9 : Nat) ++
        ", raw=0x" ++ hexPad16 18446744073709486089 ++ ")")
      "OrderPartiallyFilled" = true := by
    apply strContains_append_left
    apply strContains_append_left
    apply strContains_append_left
    apply strContains_append_left
    apply strContains_append_left
    apply strContains_append_right
    exact strContains_refl _
  simp only [augment_revert_reason, hfd]
  by_cases hre : reason = ""
  · rw [if_pos hre]
    exact hmo
  · rw [if_neg hre]
    by_cases hrm : strContains reason
        ("contract_schema::order_book::OrderCreationError" ++ "::" ++
          "OrderPartiallyFilled" ++ " (ordinal=" ++ toString (9 : Nat) ++
          ", raw=0x" ++ hexPad16 18446744073709486089 ++ ")") = true
    · rw [if_pos hrm]
      exact strContains_trans _ _ _ hrm hmo
    · rw [if_neg hrm]
      apply strContains_append_left
      apply strContains_append_right
      exact hmo

theorem decode_ambiguous_lists_all (raw : Nat) (ctx : String)
    (hmask : raw &&& 0xffffffffffff0000 = 0xffffffffffff0000)
    (hord : raw &&& 0xffff ≠ 0)
    (hinf : infer_enum_from_context ctx = none)
    (hlen : 2 ≤ (ABI_ERROR_ENUMS.filterMap (fun p =>
      if raw &&& 0xffff ≤ p.2.length then
        some (p.1 ++ "::" ++ p.2.getD ((raw &&& 0xffff) - 1) "")
      else none)).length) :
    ∃ out, decode_revert_code raw ctx = some out ∧
      ∀ name ∈ ABI_ERROR_ENUMS.filterMap (fun p =>
          if raw &&& 0xffff ≤ p.2.length then
            some (p.1 ++ "::" ++ p.2.getD ((raw &&& 0xffff) - 1) "")
          else none),
        strContains out name = true := by
  simp only [decode_revert_code]
  rw [if_neg (not_not.mpr hmask), if_neg hord, hinf]
  have hemp : (ABI_ERROR_ENUMS.filterMap (fun p =>
      if raw &&& 0xffff ≤ p.2.length then
        some (p.1 ++ "::" ++ p.2.getD ((raw &&& 0xffff) - 1) "")
      else none)).isEmpty = false := by
    rcases hc : ABI_ERROR_ENUMS.filterMap (fun p =>
      if raw &&& 0xffff ≤ p.2.length then
        some (p.1 ++ "::" ++ p.2.getD ((raw &&& 0xffff) - 1) "")
      else none) with _ | ⟨x, xs⟩
    · rw [hc] at hlen
      simp at hlen
    · rw [hc]
      rfl
  have hne1 : ¬ ((ABI_ERROR_ENUMS.filterMap (fun p =>
      if raw &&& 0xffff ≤ p.2.length then
        some (p.1 ++ "::" ++ p.2.getD ((raw &&& 0xffff) - 1) "")
      else none)).length = 1) := by omega
  simp only [hemp, Bool.false_eq_true, if_false, hne1]
  refine ⟨_, rfl, ?_⟩
  intro name hname
  apply strContains_append_left
  apply strContains_append_right
  exact joinSep_mem_contains _ _ hname

/-- C8 (amended): (1) when no extracted revert code matches the reserved
signal pattern with a nonzero 16-bit ordinal, the decoder returns the
original reason unchanged; (2) when the context text contains "CreateOrder"
and the first pattern-matching revert code is `Revert(18446744073709486089)`
(ordinal 9), the output contains `OrderPartiallyFilled`; (3) when no group
can be inferred from context and at least two groups have a variant at the
ordinal, the decode lists every candidate group. -/
theorem augment_revert_reason_spec :
    (∀ (message reason : String) (receipts : Option String),
      (∀ raw ∈ extract_revert_codes (revertContext message reason receipts),
        sentinelOk raw = false) →
      augment_revert_reason message reason receipts = reason) ∧
    (∀ (message reason : String) (receipts : Option String),
      strContains (revertContext message reason receipts) "CreateOrder" = true →
      (∃ pre post,
        extract_revert_codes (revertContext message reason receipts) =
          pre ++ (18446744073709486089 :: post) ∧
        ∀ raw ∈ pre, sentinelOk raw = false) →
      strContains (augment_revert_reason message reason receipts)
        "OrderPartiallyFilled" = true) ∧
    (∀ (raw : Nat) (ctx : String),
      raw &&& 0xffffffffffff0000 = 0xffffffffffff0000 →
      raw &&& 0xffff ≠ 0 →
      infer_enum_from_context ctx = none →
      2 ≤ (ABI_ERROR_ENUMS.filterMap (fun p =>
        if raw &&& 0xffff ≤ p.2.length then
          some (p.1 ++ "::" ++ p.2.getD ((raw &&& 0xffff) - 1) "")
        else none)).length →
      ∃ out, decode_revert_code raw ctx = some out ∧
        ∀ name ∈ ABI_ERROR_ENUMS.filterMap (fun p =>
            if raw &&& 0xffff ≤ p.2.length then
              some (p.1 ++ "::" ++ p.2.getD ((raw &&& 0xffff) - 1) "")
            else none),
          strContains out name = true) :=
  ⟨augment_no_sentinel_unchanged, augment_createOrder_opf,
    decode_ambiguous_lists_all⟩

/-- C8 witness: instantiating all three parts at concrete inputs — the
fixture message decodes to `OrderPartiallyFilled`, a code-free message
leaves the reason unchanged, and the context-free ordinal 1 lists multiple
candidates. -/
theorem augment_revert_reason_spec_witness :
    augment_revert_reason "plain error" "some reason" none = "some reason" ∧
    strContains
      (augment_revert_reason "CreateOrder failed Revert(18446744073709486089)"
        "" none) "OrderPartiallyFilled" = true ∧
    (∃ out, decode_revert_code 18446744073709486081 "zzz" = some out ∧
      ∀ name ∈ ABI_ERROR_ENUMS.filterMap (fun p =>
          if (18446744073709486081 : Nat) &&& 0xffff ≤ p.2.length then
            some (p.1 ++ "::" ++
              p.2.getD (((18446744073709486081 : Nat) &&& 0xffff) - 1) "")
          else none),
        strContains out name = true) :=
  ⟨augment_revert_reason_spec.1 "plain error" "some reason" none (by decide),
   augment_revert_reason_spec.2.1 "CreateOrder failed Revert(18446744073709486089)"
     "" none (by decide) ⟨[], [], by decide, by decide⟩,
   augment_revert_reason_spec.2.2 18446744073709486081 "zzz" (by decide)
     (by decide) (by decide) (by decide)⟩

/-- C8 counterexample: a text containing both "CreateOrder" and
`Revert(18446744073709486089)` whose output does not contain
`OrderPartiallyFilled`, because an earlier decodable code
(`Revert(18446744073709486086)`, ordinal 6) wins. -/
theorem augment_earlier_code_wins :
    strContains
      (revertContext
        "CreateOrder Revert(18446744073709486086) Revert(18446744073709486089)"
        "r" none) "CreateOrder" = true ∧
    strContains
      (revertContext
        "CreateOrder Revert(18446744073709486086) Revert(18446744073709486089)"
        "r" none) "Revert(18446744073709486089)" = true ∧
    strContains
      (augment_revert_reason
        "CreateOrder Revert(18446744073709486086) Revert(18446744073709486089)"
        "r" none) "OrderPartiallyFilled" = false := by
  refine ⟨by decide, by decide, by decide⟩
